import Mathlib

/-!
Shallow embedding of the core of the `vibe-quant` repository
(signal engine, sliding-window rate limiter, protective-stop manager)
and proofs of the specification's claims about it.

Conventions of the embedding:
* Python `Decimal` values are embedded as exact rationals (`ℚ`);
  all comparisons in the source are exact decimal comparisons.
* Millisecond timestamps are embedded as `Int`.
* Fallible paths (`raise`) are embedded as `Option`.
* Helper functions that live in `src/utils/helpers.py` and the data model in
  `src/models.py` are not part of the provided source tree; where needed they
  are modelled from the specification and marked as such in their doc comments.
-/

namespace VibeQuant

/-- Position side (`src/models.py`, re-exported by `src/__init__.py`).
Modelled from the spec: hedge mode has independent LONG and SHORT sides. -/
inductive PositionSide
  | LONG
  | SHORT
deriving DecidableEq, Repr

/-- Modelled from the spec: `round_to_tick` from `src/utils/helpers.py` (the file
is not in the provided source tree).  The spec's round-trip law
`round_to_tick(x, t) ≤ x < round_to_tick(x, t) + t` characterizes rounding
down to an integer multiple of the tick. -/
def round_to_tick (x tick : ℚ) : ℚ := (⌊x / tick⌋ : ℚ) * tick

/-- Modelled from the spec: `round_up_to_tick` from `src/utils/helpers.py`
(not in the provided source tree); the law `round_up_to_tick(x, t) ≥ x`
together with tick-multiple output characterizes rounding up. -/
def round_up_to_tick (x tick : ℚ) : ℚ := (⌈x / tick⌉ : ℚ) * tick

/-- `ProtectiveStopManager.compute_stop_price` (`src/risk/protective_stop.py`).
The two `raise ValueError` paths are embedded as `none`. -/
def compute_stop_price (position_side : PositionSide)
    (liquidation_price dist_to_liq tick_size : ℚ) : Option ℚ :=
  if liquidation_price ≤ 0 then none
  else if dist_to_liq ≤ 0 ∨ 1 ≤ dist_to_liq then none
  else if position_side = PositionSide.LONG then
    some (round_up_to_tick (liquidation_price / (1 - dist_to_liq)) tick_size)
  else
    some (round_to_tick (liquidation_price / (1 + dist_to_liq)) tick_size)

/-! ## Sliding-window rate limiter (`src/risk/rate_limiter.py`) -/

/-- `SlidingWindowRateLimiter.try_acquire`.  The mutable deque `_events_ms`
(oldest first) is passed and returned explicitly; the `while ... popleft()`
loop is `dropWhile` on the front of the deque. -/
def try_acquire (max_events window_ms : Int) (events : List Int)
    (now_ms : Int) : Bool × List Int :=
  if max_events ≤ 0 then (true, events)
  else
    let cutoff := now_ms - window_ms
    let evs := events.dropWhile (fun e => e ≤ cutoff)
    if max_events ≤ (evs.length : Int) then (false, evs)
    else (true, evs ++ [now_ms])

/-- Run `try_acquire` over a sequence of call timestamps, collecting the
returned decisions. -/
def run_try_acquire (max_events window_ms : Int) (events : List Int) :
    List Int → List Bool
  | [] => []
  | t :: ts =>
    let r := try_acquire max_events window_ms events t
    r.1 :: run_try_acquire max_events window_ms r.2 ts

/-- Run `try_acquire` over a sequence of call timestamps, collecting the
timestamps of the calls that were admitted (returned `True`). -/
def accepted_times (max_events window_ms : Int) (events : List Int) :
    List Int → List Int
  | [] => []
  | t :: ts =>
    let r := try_acquire max_events window_ms events t
    if r.1 then t :: accepted_times max_events window_ms r.2 ts
    else accepted_times max_events window_ms r.2 ts

/-- Membership in the rolling window `(T − 1000, T]`, as a Boolean predicate. -/
def in_window (T x : Int) : Bool := decide (T - 1000 < x) && decide (x ≤ T)

lemma accepted_times_subset (N w : Int) :
    ∀ (ts q : List Int) (x : Int), x ∈ accepted_times N w q ts → x ∈ ts := by
  intro ts
  induction ts with
  | nil => intro q x hx; simp [accepted_times] at hx
  | cons t ts ih =>
    intro q x hx
    simp only [accepted_times] at hx
    by_cases hb : (try_acquire N w q t).1
    · rw [if_pos hb] at hx
      rcases List.mem_cons.mp hx with h | h
      · exact List.mem_cons.mpr (Or.inl h)
      · exact List.mem_cons.mpr (Or.inr (ih _ _ h))
    · rw [if_neg hb] at hx
      exact List.mem_cons.mpr (Or.inr (ih _ _ hx))

/-- Strictly after the window cutoff `T − 1000`, as a Boolean predicate. -/
def after_cut (T x : Int) : Bool := decide (T - 1000 < x)

lemma dropWhile_mem {q : List Int} {p : Int → Bool} {e : Int}
    (h : e ∈ q.dropWhile p) : e ∈ q := by
  have := List.takeWhile_append_dropWhile (p := p) (l := q)
  rw [← this]
  exact List.mem_append.mpr (Or.inr h)

/-- Main invariant of the sliding-window limiter: starting from a deque `q`
whose entries all precede the remaining (sorted) call times and whose length
is within the cap, the admitted calls falling in the rolling window
`(T − 1000, T]` plus the deque entries after the cutoff never exceed the cap. -/
lemma accepted_window_bound (N T : Int) (hN : 0 < N) :
    ∀ (ts q : List Int), List.Sorted (· ≤ ·) ts →
      (∀ e ∈ q, ∀ s ∈ ts, e ≤ s) → (q.length : Int) ≤ N →
      ((accepted_times N 1000 q ts).countP (in_window T) : Int)
        + (q.countP (after_cut T) : Int) ≤ N := by
  intro ts
  induction ts with
  | nil =>
    intro q _ _ hlen
    simp only [accepted_times, List.countP_nil, Nat.cast_zero, zero_add]
    have h1 : q.countP (after_cut T) ≤ q.length := List.countP_le_length _
    omega
  | cons t ts ih =>
    intro q hsort hq hlen
    obtain ⟨hts_lb, hts_sorted⟩ := List.sorted_cons.mp hsort
    have hNne : ¬ N ≤ 0 := by omega
    set evs := q.dropWhile (fun e => e ≤ t - 1000) with hevs_def
    have hevs_mem : ∀ e ∈ evs, e ∈ q := fun e he => dropWhile_mem he
    have hdrop_le : ∀ e ∈ q.takeWhile (fun e => e ≤ t - 1000), e ≤ t - 1000 := by
      intro e he
      have := List.mem_takeWhile_imp he
      exact of_decide_eq_true this
    have hsplit : q.takeWhile (fun e => e ≤ t - 1000) ++ evs = q := by
      rw [hevs_def]
      exact List.takeWhile_append_dropWhile _ _
    have hevs_len : evs.length ≤ q.length := by
      have := congrArg List.length hsplit
      simp only [List.length_append] at this
      omega
    -- the count of q past the cutoff splits over takeWhile/dropWhile
    have hq_count : q.countP (after_cut T) =
        (q.takeWhile (fun e => e ≤ t - 1000)).countP (after_cut T)
          + evs.countP (after_cut T) := by
      conv_lhs => rw [← hsplit]
      exact List.countP_append _ _ _
    by_cases hcap : N ≤ (evs.length : Int)
    · -- call refused: deque shrinks to `evs`, no time recorded
      have hta : try_acquire N 1000 q t = (false, evs) := by
        simp only [try_acquire, if_neg hNne]
        rw [if_pos hcap]
      have hrun : accepted_times N 1000 q (t :: ts)
          = accepted_times N 1000 evs ts := by
        simp [accepted_times, hta]
      rw [hrun]
      have hIH := ih evs hts_sorted
        (fun e he s hs => hq e (hevs_mem e he) s (List.mem_cons.mpr (Or.inr hs)))
        (by exact le_trans (by exact_mod_cast hevs_len) hlen)
      by_cases hTt : t ≤ T
      · -- every dropped entry is at or before the cutoff, so it is not counted
        have hdz : (q.takeWhile (fun e => e ≤ t - 1000)).countP (after_cut T) = 0 := by
          rw [List.countP_eq_zero]
          intro e he
          have := hdrop_le e he
          simp only [after_cut, decide_eq_true_eq]
          omega
        rw [hq_count, hdz]
        omega
      · -- the window ends before this call: no admitted call of the rest is counted
        have hz : (accepted_times N 1000 evs ts).countP (in_window T) = 0 := by
          rw [List.countP_eq_zero]
          intro x hx
          have hxts : x ∈ ts := accepted_times_subset N 1000 ts evs x hx
          have htx : t ≤ x := hts_lb x hxts
          simp only [in_window, Bool.and_eq_true, decide_eq_true_eq, not_and]
          intro _
          omega
        rw [hz]
        have h1 : q.countP (after_cut T) ≤ q.length := List.countP_le_length _
        simp only [Nat.cast_zero, zero_add]
        omega
    · -- call admitted: deque becomes `evs ++ [t]`
      have hta : try_acquire N 1000 q t = (true, evs ++ [t]) := by
        simp only [try_acquire, if_neg hNne]
        rw [if_neg hcap]
      have hrun : accepted_times N 1000 q (t :: ts)
          = t :: accepted_times N 1000 (evs ++ [t]) ts := by
        simp [accepted_times, hta]
      rw [hrun]
      have hIH := ih (evs ++ [t]) hts_sorted
        (by
          intro e he s hs
          rcases List.mem_append.mp he with h | h
          · exact hq e (hevs_mem e h) s (List.mem_cons.mpr (Or.inr hs))
          · have : e = t := by simpa using h
            subst this
            exact hts_lb s hs)
        (by
          have : (evs.length : Int) < N := by omega
          simp only [List.length_append, List.length_cons, List.length_nil]
          push_cast
          omega)
      have hcons : (t :: accepted_times N 1000 (evs ++ [t]) ts).countP (in_window T)
          = (accepted_times N 1000 (evs ++ [t]) ts).countP (in_window T)
            + (if in_window T t then 1 else 0) := by
        simp [List.countP_cons]
      rw [hcons]
      by_cases hTt : t ≤ T
      · have hdz : (q.takeWhile (fun e => e ≤ t - 1000)).countP (after_cut T) = 0 := by
          rw [List.countP_eq_zero]
          intro e he
          have := hdrop_le e he
          simp only [after_cut, decide_eq_true_eq]
          omega
        rw [hq_count, hdz]
        by_cases hac : T - 1000 < t
        · have h1 : in_window T t = true := by simp [in_window, hac, hTt]
          have h2 : (evs ++ [t]).countP (after_cut T)
              = evs.countP (after_cut T) + 1 := by
            rw [List.countP_append]
            simp [after_cut, hac]
          rw [h2] at hIH
          rw [h1]
          push_cast at hIH ⊢
          omega
        · have h1 : in_window T t = false := by simp [in_window, hac]
          have h2 : (evs ++ [t]).countP (after_cut T)
              = evs.countP (after_cut T) := by
            rw [List.countP_append]
            simp [after_cut, hac]
          rw [h2] at hIH
          rw [h1]
          push_cast at hIH ⊢
          omega
      · -- the window ends before this call: neither this call nor the rest count
        have hwt : in_window T t = false := by
          simp only [in_window, Bool.and_eq_false_iff]
          right
          simpa using hTt
        have hz : (accepted_times N 1000 (evs ++ [t]) ts).countP (in_window T) = 0 := by
          rw [List.countP_eq_zero]
          intro x hx
          have hxts : x ∈ ts := accepted_times_subset N 1000 ts (evs ++ [t]) x hx
          have htx : t ≤ x := hts_lb x hxts
          simp only [in_window, Bool.and_eq_true, decide_eq_true_eq, not_and]
          intro _
          omega
        rw [hz, hwt]
        have h1 : q.countP (after_cut T) ≤ q.length := List.countP_le_length _
        simp only [Bool.false_eq_true, if_false, Nat.cast_zero, zero_add,
          Nat.add_zero]
        omega

/-- C2: for every liquidation price `L > 0`, distance `d ∈ (0,1)` and tick
`t > 0`, `compute_stop_price` returns `L/(1 − d)` rounded up to a multiple of
`t` on the long side (the unique tick multiple `s` with `L/(1−d) ≤ s` and
`s − t < L/(1−d)`), and `L/(1 + d)` rounded down on the short side; with
`L = 100`, `d = 0.01`, `t = 0.1` it returns `101.1` (long) and `99.0`
(short). -/
theorem compute_stop_price_spec (L d t : ℚ)
    (hL : 0 < L) (hd0 : 0 < d) (hd1 : d < 1) (ht : 0 < t) :
    (∃ s : ℚ, compute_stop_price PositionSide.LONG L d t = some s ∧
      (∃ k : ℤ, s = (k : ℚ) * t) ∧ L / (1 - d) ≤ s ∧ s - t < L / (1 - d)) ∧
    (∃ s : ℚ, compute_stop_price PositionSide.SHORT L d t = some s ∧
      (∃ k : ℤ, s = (k : ℚ) * t) ∧ s ≤ L / (1 + d) ∧ L / (1 + d) < s + t) ∧
    compute_stop_price PositionSide.LONG 100 (1/100) (1/10) = some (1011/10) ∧
    compute_stop_price PositionSide.SHORT 100 (1/100) (1/10) = some 99 := by
  have hnot1 : ¬ L ≤ 0 := not_le.mpr hL
  have hnot2 : ¬ (d ≤ 0 ∨ 1 ≤ d) := by
    push_neg
    exact ⟨hd0, hd1⟩
  refine ⟨?_, ?_, ?_, ?_⟩
  · refine ⟨round_up_to_tick (L / (1 - d)) t, ?_, ⟨⌈L / (1 - d) / t⌉, rfl⟩, ?_, ?_⟩
    · simp [compute_stop_price, hnot1, hnot2]
    · rw [round_up_to_tick]
      exact (div_le_iff₀ ht).mp (Int.le_ceil _)
    · rw [round_up_to_tick]
      have h1 : (⌈L / (1 - d) / t⌉ : ℚ) - 1 < L / (1 - d) / t := by
        have := Int.ceil_lt_add_one (L / (1 - d) / t)
        push_cast at this
        linarith
      have h2 := (lt_div_iff₀ ht).mp h1
      linarith [h2]
  · refine ⟨round_to_tick (L / (1 + d)) t, ?_, ⟨⌊L / (1 + d) / t⌋, rfl⟩, ?_, ?_⟩
    · simp [compute_stop_price, hnot1, hnot2]
    · rw [round_to_tick]
      exact (le_div_iff₀ ht).mp (Int.floor_le _)
    · rw [round_to_tick]
      have h1 : L / (1 + d) / t < (⌊L / (1 + d) / t⌋ : ℚ) + 1 := by
        have := Int.lt_floor_add_one (L / (1 + d) / t)
        push_cast at this
        linarith
      have h2 := (div_lt_iff₀ ht).mp h1
      linarith [h2]
  · have hc : ⌈(100 : ℚ) / (1 - 1/100) / (1/10)⌉ = 1011 := by
      rw [Int.ceil_eq_iff]
      constructor <;> norm_num
    simp only [compute_stop_price, round_up_to_tick]
    rw [if_neg (by norm_num : ¬ (100 : ℚ) ≤ 0),
      if_neg (by norm_num : ¬ ((1 : ℚ)/100 ≤ 0 ∨ (1 : ℚ) ≤ 1/100)),
      if_pos trivial, hc]
    norm_num
  · have hf : ⌊(100 : ℚ) / (1 + 1/100) / (1/10)⌋ = 990 := by
      rw [Int.floor_eq_iff]
      constructor <;> norm_num
    simp only [compute_stop_price, round_to_tick]
    rw [if_neg (by norm_num : ¬ (100 : ℚ) ≤ 0),
      if_neg (by norm_num : ¬ ((1 : ℚ)/100 ≤ 0 ∨ (1 : ℚ) ≤ 1/100)),
      if_neg (by decide : ¬ PositionSide.SHORT = PositionSide.LONG), hf]
    norm_num

/-- C2 witness: the theorem applied at `L = 100`, `d = 1/100`, `t = 1/10`. -/
theorem compute_stop_price_spec_witness :
    (0 : ℚ) < 100 ∧ (0 : ℚ) < 1/100 ∧ (1 : ℚ)/100 < 1 ∧ (0 : ℚ) < 1/10 ∧
    ((∃ s : ℚ, compute_stop_price PositionSide.LONG 100 (1/100) (1/10) = some s ∧
        (∃ k : ℤ, s = (k : ℚ) * (1/10)) ∧
        (100 : ℚ) / (1 - 1/100) ≤ s ∧ s - 1/10 < 100 / (1 - 1/100)) ∧
      (∃ s : ℚ, compute_stop_price PositionSide.SHORT 100 (1/100) (1/10) = some s ∧
        (∃ k : ℤ, s = (k : ℚ) * (1/10)) ∧
        s ≤ (100 : ℚ) / (1 + 1/100) ∧ (100 : ℚ) / (1 + 1/100) < s + 1/10) ∧
      compute_stop_price PositionSide.LONG 100 (1/100) (1/10) = some (1011/10) ∧
      compute_stop_price PositionSide.SHORT 100 (1/100) (1/10) = some 99) :=
  ⟨by norm_num, by norm_num, by norm_num, by norm_num,
    compute_stop_price_spec 100 (1/100) (1/10)
      (by norm_num) (by norm_num) (by norm_num) (by norm_num)⟩

/-- C4: with a positive cap `N`, over any non-decreasing sequence of call
timestamps at most `N` `try_acquire` calls are admitted inside any rolling
window `(T − 1000, T]`; and with `N = 2` at times 0, 100, 200, 1001 ms the
decisions are `True, True, False, True`. -/
theorem rate_limiter_sliding_window (N T : Int) (ts : List Int)
    (hN : 0 < N) (hsort : List.Sorted (· ≤ ·) ts) :
    ((accepted_times N 1000 [] ts).countP (in_window T) : Int) ≤ N ∧
    run_try_acquire 2 1000 [] [0, 100, 200, 1001] = [true, true, false, true] := by
  constructor
  · have h := accepted_window_bound N T hN ts [] hsort
      (by intro e he s _; simp at he)
      (by simp only [List.length_nil, Nat.cast_zero]; omega)
    simpa using h
  · rfl

/-- C4 witness: the window bound and decision sequence at the spec's S6
scenario (`N = 2`, calls at 0, 100, 200, 1001 ms, window ending at 1000). -/
theorem rate_limiter_sliding_window_witness :
    (0 : Int) < 2 ∧ List.Sorted (· ≤ ·) [(0 : Int), 100, 200, 1001] ∧
    (((accepted_times 2 1000 [] [0, 100, 200, 1001]).countP (in_window 1000) : Int) ≤ 2 ∧
      run_try_acquire 2 1000 [] [0, 100, 200, 1001] = [true, true, false, true]) :=
  ⟨by decide, by decide,
    rate_limiter_sliding_window 2 1000 [0, 100, 200, 1001] (by decide) (by decide)⟩

/-- C10: a limiter constructed with `max_events ≤ 0` admits every call and
records no event timestamp: the deque is returned untouched and a whole run
returns `True` for every call. -/
theorem try_acquire_nonpositive_limit (N w now : Int) (q ts : List Int)
    (hN : N ≤ 0) :
    try_acquire N w q now = (true, q) ∧
    run_try_acquire N w q ts = List.replicate ts.length true := by
  refine ⟨by simp [try_acquire, hN], ?_⟩
  induction ts generalizing q with
  | nil => rfl
  | cons t ts ih =>
    simp only [run_try_acquire, try_acquire, if_pos hN]
    rw [List.length_cons, List.replicate_succ]
    exact congrArg (true :: ·) (ih q)

/-- C10 witness: the theorem applied with `max_events = 0` and two calls. -/
theorem try_acquire_nonpositive_limit_witness :
    (0 : Int) ≤ 0 ∧
    (try_acquire 0 1000 [] 5 = (true, []) ∧
      run_try_acquire 0 1000 [] [5, 6] = List.replicate 2 true) :=
  ⟨le_refl 0, by
    have h := try_acquire_nonpositive_limit 0 1000 5 [] [5, 6] (le_refl 0)
    simpa using h⟩

/-! ## Signal engine (`src/signal/engine.py`) -/

/-- Signal reasons (`src/models.py` SignalReason, as produced by the engine). -/
inductive SignalReason
  | LONG_PRIMARY
  | LONG_BID_IMPROVE
  | SHORT_PRIMARY
  | SHORT_ASK_IMPROVE
deriving DecidableEq, Repr

/-- Per-instrument market state (`src/models.py` MarketState; the dataclass is
not in the source tree, its fields are modelled from the spec's data model and
from how `SignalEngine` reads and writes it). -/
structure MarketState where
  best_bid : ℚ
  best_ask : ℚ
  last_trade_price : ℚ
  previous_trade_price : Option ℚ
  last_update_ms : Int
  is_ready : Bool
deriving DecidableEq, Repr

/-- Market event kinds.  Modelled from the spec: the market stream delivers
`book_ticker` and `agg_trade` events. -/
inductive MarketEventType
  | book_ticker
  | agg_trade
deriving DecidableEq, Repr

/-- A market event for one symbol (`src/models.py` MarketEvent, fields as read
by `update_market`; optional fields are nullable in the source). -/
structure MarketEvent where
  event_type : MarketEventType
  timestamp_ms : Int
  best_bid : Option ℚ
  best_ask : Option ℚ
  last_trade_price : Option ℚ
deriving DecidableEq, Repr

/-- The engine's per-symbol market bookkeeping: `_market_states[symbol]`,
`_has_book_data[symbol]`, `_has_trade_data[symbol]`, `_trade_history[symbol]`. -/
structure SymbolMarket where
  state : MarketState
  has_book_data : Bool
  has_trade_data : Bool
  trade_history : List (Int × ℚ)
deriving DecidableEq, Repr

/-- The fresh `MarketState` built by `update_market` on first contact. -/
def initMarketState : MarketState :=
  { best_bid := 0, best_ask := 0, last_trade_price := 0,
    previous_trade_price := none, last_update_ms := 0, is_ready := false }

/-- `SignalEngine.update_market`, specialized to one symbol: `none` means no
`MarketState` exists yet (it is created on the first event). -/
def update_market (cur : Option SymbolMarket) (event : MarketEvent) :
    SymbolMarket :=
  let s0 := match cur with
    | some s => s
    | none => { state := initMarketState, has_book_data := false,
                has_trade_data := false, trade_history := [] }
  let s1 : SymbolMarket :=
    { s0 with state := { s0.state with last_update_ms := event.timestamp_ms } }
  let s2 : SymbolMarket :=
    match event.event_type with
    | MarketEventType.book_ticker =>
      let stA := match event.best_bid with
        | some b => { s1.state with best_bid := b }
        | none => s1.state
      let stB := match event.best_ask with
        | some a => { stA with best_ask := a }
        | none => stA
      { s1 with state := stB, has_book_data := true }
    | MarketEventType.agg_trade =>
      match event.last_trade_price with
      | some p =>
        let hist := s1.trade_history ++ [(event.timestamp_ms, p)]
        let stA := if 0 < s1.state.last_trade_price
          then { s1.state with previous_trade_price := some s1.state.last_trade_price }
          else s1.state
        let stB := { stA with last_trade_price := p }
        { s1 with state := stB, has_trade_data := true, trade_history := hist }
      | none => s1
  let ready := s2.has_book_data && s2.has_trade_data
    && s2.state.previous_trade_price.isSome
    && decide (0 < s2.state.best_bid) && decide (0 < s2.state.best_ask)
    && decide (0 < s2.state.last_trade_price)
  { s2 with state := { s2.state with is_ready := ready } }

/-- Feed a sequence of market events for one symbol into a fresh engine. -/
def process_events (events : List MarketEvent) : Option SymbolMarket :=
  events.foldl (fun acc e => some (update_market acc e)) none

/-- `SignalEngine._check_long_exit`. -/
def check_long_exit (state : MarketState) : Option SignalReason :=
  match state.previous_trade_price with
  | none => none
  | some prev =>
    if prev < state.last_trade_price ∧ state.last_trade_price ≤ state.best_bid then
      some SignalReason.LONG_PRIMARY
    else if state.last_trade_price ≤ state.best_bid ∧ prev < state.best_bid then
      some SignalReason.LONG_BID_IMPROVE
    else none

/-- `SignalEngine._check_short_exit`. -/
def check_short_exit (state : MarketState) : Option SignalReason :=
  match state.previous_trade_price with
  | none => none
  | some prev =>
    if state.last_trade_price < prev ∧ state.best_ask ≤ state.last_trade_price then
      some SignalReason.SHORT_PRIMARY
    else if state.best_ask ≤ state.last_trade_price ∧ state.best_ask < prev then
      some SignalReason.SHORT_ASK_IMPROVE
    else none

/-- C3: over a market state whose previous trade price is known, the long exit
reason is `LONG_PRIMARY` iff `last > prev ∧ bid ≥ last`, and `LONG_BID_IMPROVE`
iff primary fails and `bid ≥ last ∧ bid > prev`; symmetrically `SHORT_PRIMARY`
iff `last < prev ∧ ask ≤ last` and `SHORT_ASK_IMPROVE` iff primary fails and
`ask ≤ last ∧ ask < prev`; primary dominates improve and no other reason is
produced. -/
theorem check_exit_reasons (state : MarketState) (p : ℚ)
    (hprev : state.previous_trade_price = some p) :
    (check_long_exit state = some SignalReason.LONG_PRIMARY ↔
      p < state.last_trade_price ∧ state.last_trade_price ≤ state.best_bid) ∧
    (check_long_exit state = some SignalReason.LONG_BID_IMPROVE ↔
      ¬ (p < state.last_trade_price ∧ state.last_trade_price ≤ state.best_bid) ∧
        state.last_trade_price ≤ state.best_bid ∧ p < state.best_bid) ∧
    (check_short_exit state = some SignalReason.SHORT_PRIMARY ↔
      state.last_trade_price < p ∧ state.best_ask ≤ state.last_trade_price) ∧
    (check_short_exit state = some SignalReason.SHORT_ASK_IMPROVE ↔
      ¬ (state.last_trade_price < p ∧ state.best_ask ≤ state.last_trade_price) ∧
        state.best_ask ≤ state.last_trade_price ∧ state.best_ask < p) ∧
    (∀ r, check_long_exit state = some r →
      r = SignalReason.LONG_PRIMARY ∨ r = SignalReason.LONG_BID_IMPROVE) ∧
    (∀ r, check_short_exit state = some r →
      r = SignalReason.SHORT_PRIMARY ∨ r = SignalReason.SHORT_ASK_IMPROVE) := by
  simp only [check_long_exit, check_short_exit, hprev]
  refine ⟨?_, ?_, ?_, ?_, ?_, ?_⟩
  · split_ifs with h1 h2 <;> simp_all
  · split_ifs with h1 h2 <;> simp_all
  · split_ifs with h1 h2 <;> simp_all
  · split_ifs with h1 h2 <;> simp_all
  · intro r
    split_ifs with h1 h2 <;> simp_all
  · intro r
    split_ifs with h1 h2 <;> simp_all

/-- C3 witness: a concrete ready state (`prev = 1`, `last = 2`, `bid = 2`,
`ask = 3`) where the long primary condition fires. -/
theorem check_exit_reasons_witness :
    ({ best_bid := 2, best_ask := 3, last_trade_price := 2,
       previous_trade_price := some 1, last_update_ms := 0,
       is_ready := true } : MarketState).previous_trade_price = some 1 ∧
    check_long_exit
      { best_bid := 2, best_ask := 3, last_trade_price := 2,
        previous_trade_price := some 1, last_update_ms := 0,
        is_ready := true } = some SignalReason.LONG_PRIMARY := by
  constructor
  · rfl
  · have h := check_exit_reasons
      { best_bid := 2, best_ask := 3, last_trade_price := 2,
        previous_trade_price := some 1, last_update_ms := 0,
        is_ready := true } 1 rfl
    exact h.1.mpr (by norm_num)

/-- The inductive invariant behind C8: previous trade prices are always
positive once populated, positive book/trade prices imply the corresponding
has-data flag, and the stored `is_ready` equals the source's readiness
formula. -/
def MarketInv (s : SymbolMarket) : Prop :=
  (∀ p, s.state.previous_trade_price = some p → 0 < p) ∧
  (0 < s.state.best_bid → s.has_book_data = true) ∧
  (0 < s.state.last_trade_price → s.has_trade_data = true) ∧
  s.state.is_ready = (s.has_book_data && s.has_trade_data
    && s.state.previous_trade_price.isSome
    && decide (0 < s.state.best_bid) && decide (0 < s.state.best_ask)
    && decide (0 < s.state.last_trade_price))

lemma update_market_inv (cur : Option SymbolMarket) (e : MarketEvent)
    (h : ∀ s, cur = some s → MarketInv s) : MarketInv (update_market cur e) := by
  rcases cur with _ | s0
  · -- fresh state
    rcases e with ⟨ty, ts, bb, ba, lt⟩
    cases ty <;> rcases bb with _ | b <;> rcases ba with _ | a <;>
      rcases lt with _ | p <;>
      simp [update_market, MarketInv, initMarketState]
  · have hs0 := h s0 rfl
    obtain ⟨hprev, hbid, hlast, _⟩ := hs0
    rcases e with ⟨ty, ts, bb, ba, lt⟩
    cases ty
    · rcases bb with _ | b <;> rcases ba with _ | a <;>
        simp_all [update_market, MarketInv]
    · rcases lt with _ | p
      · simp_all [update_market, MarketInv]
      · simp only [update_market, MarketInv]
        by_cases hpos : 0 < s0.state.last_trade_price
        · rw [if_pos hpos]
          simp_all
        · rw [if_neg hpos]
          simp_all

lemma process_events_inv :
    ∀ (events : List MarketEvent) (cur : Option SymbolMarket),
      (∀ s, cur = some s → MarketInv s) →
      ∀ s, events.foldl (fun acc e => some (update_market acc e)) cur = some s →
        MarketInv s := by
  intro events
  induction events with
  | nil =>
    intro cur h s hs
    simp only [List.foldl_nil] at hs
    exact h s hs
  | cons e es ih =>
    intro cur h s hs
    simp only [List.foldl_cons] at hs
    refine ih (some (update_market cur e)) ?_ s hs
    intro s' hs'
    have : s' = update_market cur e := by
      injection hs'.symm
    rw [this]
    exact update_market_inv cur e h

/-- C8: after any (non-empty) sequence of `update_market` events the stored
`is_ready` flag is true iff best bid, best ask, last trade price and the
previous trade price are all strictly positive and the previous trade price
has been populated. -/
theorem update_market_is_ready (events : List MarketEvent) (s : SymbolMarket)
    (h : process_events events = some s) :
    (s.state.is_ready = true ↔
      (0 < s.state.best_bid ∧ 0 < s.state.best_ask ∧
        0 < s.state.last_trade_price ∧
        ∃ p, s.state.previous_trade_price = some p ∧ 0 < p)) := by
  have hinv : MarketInv s :=
    process_events_inv events none (by intro s' hs'; cases hs') s h
  obtain ⟨hprev, hbid, hlast, hready⟩ := hinv
  rw [hready]
  constructor
  · intro hb
    simp only [Bool.and_eq_true, decide_eq_true_eq, Option.isSome_iff_exists] at hb
    obtain ⟨⟨⟨⟨⟨_, _⟩, ⟨p, hp⟩⟩, h1⟩, h2⟩, h3⟩ := hb
    exact ⟨h1, h2, h3, p, hp, hprev p hp⟩
  · intro ⟨h1, h2, h3, p, hp, _⟩
    simp only [Bool.and_eq_true, decide_eq_true_eq, Option.isSome_iff_exists]
    exact ⟨⟨⟨⟨⟨hbid h1, hlast h3⟩, ⟨p, hp⟩⟩, h1⟩, h2⟩, h3⟩

/-- C8 witness: one book event then two trades leaves the stored state ready,
and the theorem's equivalence holds for it. -/
theorem update_market_is_ready_witness :
    process_events
        [⟨MarketEventType.book_ticker, 1000, some 2, some 3, none⟩,
         ⟨MarketEventType.agg_trade, 1100, none, none, some 1⟩,
         ⟨MarketEventType.agg_trade, 1200, none, none, some 2⟩]
      = some { state := { best_bid := 2, best_ask := 3, last_trade_price := 2,
                          previous_trade_price := some 1, last_update_ms := 1200,
                          is_ready := true },
               has_book_data := true, has_trade_data := true,
               trade_history := [(1100, 1), (1200, 2)] } ∧
    (({ state := { best_bid := 2, best_ask := 3, last_trade_price := 2,
                   previous_trade_price := some 1, last_update_ms := 1200,
                   is_ready := true },
        has_book_data := true, has_trade_data := true,
        trade_history := [(1100, 1), (1200, 2)] } : SymbolMarket).state.is_ready = true ↔
      (0 < (2 : ℚ) ∧ 0 < (3 : ℚ) ∧ 0 < (2 : ℚ) ∧
        ∃ p, (some 1 : Option ℚ) = some p ∧ 0 < p)) := by
  constructor
  · decide
  · have h := update_market_is_ready
      [⟨MarketEventType.book_ticker, 1000, some 2, some 3, none⟩,
       ⟨MarketEventType.agg_trade, 1100, none, none, some 1⟩,
       ⟨MarketEventType.agg_trade, 1200, none, none, some 2⟩]
      { state := { best_bid := 2, best_ask := 3, last_trade_price := 2,
                   previous_trade_price := some 1, last_update_ms := 1200,
                   is_ready := true },
        has_book_data := true, has_trade_data := true,
        trade_history := [(1100, 1), (1200, 2)] }
      (by decide)
    exact h

/-- Position (`src/models.py`, fields as read by the signal engine and the
protective-stop manager; the dataclass itself is modelled from the spec's
data model). -/
structure Position where
  position_amt : ℚ
  entry_price : ℚ
  unrealized_pnl : ℚ
  leverage : Int
  mark_price : Option ℚ
  liquidation_price : Option ℚ
deriving DecidableEq, Repr

/-- Per-symbol engine configuration: the `_symbol_*` override dictionaries of
`SignalEngine`, restricted to one symbol (`none` = no override present). -/
structure SymbolConfig where
  min_signal_interval_ms : Option Int
  accel_window_ms : Option Int
  accel_tiers : List (ℚ × Int)
  roi_tiers : List (ℚ × Int)
deriving DecidableEq, Repr

/-- The signal engine's per-symbol mutable state: the market bundle plus the
`_last_signal_ms` entries for the two sides.  The source reads the entry with
`dict.get(key, 0)`, so an absent entry and a stored `0` are both `0` here. -/
structure EngineState where
  market : Option SymbolMarket
  last_signal_long_ms : Int
  last_signal_short_ms : Int
deriving DecidableEq, Repr

/-- An exit signal (`src/models.py` ExitSignal, fields as built by
`SignalEngine.evaluate`). -/
structure ExitSignal where
  position_side : PositionSide
  reason : SignalReason
  timestamp_ms : Int
  best_bid : ℚ
  best_ask : ℚ
  last_trade_price : ℚ
  roi_mult : Int
  accel_mult : Int
  roi : Option ℚ
  ret_window : Option ℚ
deriving DecidableEq, Repr

/-- The `_last_signal_ms` entry for one side (`dict.get(key, 0)`). -/
def last_signal_ms (e : EngineState) : PositionSide → Int
  | PositionSide.LONG => e.last_signal_long_ms
  | PositionSide.SHORT => e.last_signal_short_ms

/-- `SignalEngine._is_throttled`.  `default_interval` is the engine-wide
`min_signal_interval_ms`; the per-symbol override wins when present. -/
def is_throttled (default_interval : Int) (cfg : SymbolConfig)
    (e : EngineState) (side : PositionSide) (current_ms : Int) : Bool :=
  let last := last_signal_ms e side
  if last = 0 then false
  else decide (current_ms - last < cfg.min_signal_interval_ms.getD default_interval)

/-- `SignalEngine._compute_accel_ret`.  The deque `_trade_history[symbol]` is
passed and returned explicitly (the `popleft` loop is `dropWhile`). -/
def compute_accel_ret (cfg : SymbolConfig) (current_ms : Int) (last_price : ℚ)
    (history : List (Int × ℚ)) : Option ℚ × List (Int × ℚ) :=
  if last_price ≤ 0 then (none, history)
  else if history.length < 2 then (none, history)
  else
    let cutoff := current_ms - cfg.accel_window_ms.getD 2000
    let h2 := history.dropWhile (fun en => en.1 < cutoff)
    match h2 with
    | [] => (none, h2)
    | e0 :: rest =>
      if e0.2 ≤ 0 then (none, e0 :: rest)
      else (some (last_price / e0.2 - 1), e0 :: rest)

/-- `SignalEngine._select_accel_mult`. -/
def select_accel_mult (cfg : SymbolConfig) (side : PositionSide)
    (ret_window : Option ℚ) : Int :=
  match ret_window with
  | none => 1
  | some r =>
    cfg.accel_tiers.foldl
      (fun best tier =>
        if (match side with
            | PositionSide.LONG => decide (tier.1 ≤ r)
            | PositionSide.SHORT => decide (r ≤ -tier.1)) then
          max best (max tier.2 1)
        else best) 1

/-- `SignalEngine._compute_roi`. -/
def compute_roi (position : Position) : Option ℚ :=
  let qty := |position.position_amt|
  if qty ≤ 0 then none
  else if position.entry_price ≤ 0 then none
  else
    let leverage := if 0 < position.leverage then position.leverage else 1
    let initial_margin := qty * position.entry_price / (leverage : ℚ)
    if initial_margin ≤ 0 then none
    else some (position.unrealized_pnl / initial_margin)

/-- `SignalEngine._select_roi_mult`. -/
def select_roi_mult (cfg : SymbolConfig) (roi : Option ℚ) : Int :=
  match roi with
  | none => 1
  | some r =>
    cfg.roi_tiers.foldl
      (fun best tier =>
        if decide (tier.1 ≤ r) then max best (max tier.2 1) else best) 1

/-- `SignalEngine.evaluate`, specialized to one symbol.  Logging is dropped;
everything else (ready gate, throttle, flat-position gate, reason checks,
accel/roi multipliers, throttle-timestamp update, history eviction) follows
the source. -/
def evaluate (default_interval : Int) (cfg : SymbolConfig) (e : EngineState)
    (side : PositionSide) (position : Position) (current_ms : Int) :
    Option ExitSignal × EngineState :=
  match e.market with
  | none => (none, e)
  | some m =>
    if m.state.is_ready = false then (none, e)
    else if is_throttled default_interval cfg e side current_ms then (none, e)
    else if |position.position_amt| = 0 then (none, e)
    else
      match (match side with
             | PositionSide.LONG => check_long_exit m.state
             | PositionSide.SHORT => check_short_exit m.state) with
      | none => (none, e)
      | some r =>
        let ar := compute_accel_ret cfg current_ms m.state.last_trade_price
          m.trade_history
        let am := select_accel_mult cfg side ar.1
        let roi := compute_roi position
        let rm := select_roi_mult cfg roi
        let e2 : EngineState :=
          { market := some { m with trade_history := ar.2 },
            last_signal_long_ms :=
              if side = PositionSide.LONG then current_ms else e.last_signal_long_ms,
            last_signal_short_ms :=
              if side = PositionSide.SHORT then current_ms else e.last_signal_short_ms }
        (some { position_side := side, reason := r, timestamp_ms := current_ms,
                best_bid := m.state.best_bid, best_ask := m.state.best_ask,
                last_trade_price := m.state.last_trade_price,
                roi_mult := rm, accel_mult := am, roi := roi,
                ret_window := ar.1 }, e2)

/-- The opposite hedge side. -/
def otherSide : PositionSide → PositionSide
  | PositionSide.LONG => PositionSide.SHORT
  | PositionSide.SHORT => PositionSide.LONG

/-- Run `evaluate` over a sequence of later calls on one side, collecting the
emitted signals and the final engine state. -/
def evaluate_run (default_interval : Int) (cfg : SymbolConfig)
    (e : EngineState) (side : PositionSide) :
    List (Position × Int) → List (Option ExitSignal) × EngineState
  | [] => ([], e)
  | c :: cs =>
    let r := evaluate default_interval cfg e side c.1 c.2
    let rest := evaluate_run default_interval cfg r.2 side cs
    (r.1 :: rest.1, rest.2)

lemma evaluate_emit_state (default_interval : Int) (cfg : SymbolConfig)
    (e : EngineState) (side : PositionSide) (position : Position) (t : Int)
    (sig : ExitSignal) (e' : EngineState)
    (h : evaluate default_interval cfg e side position t = (some sig, e')) :
    e'.last_signal_long_ms
        = (if side = PositionSide.LONG then t else e.last_signal_long_ms) ∧
      e'.last_signal_short_ms
        = (if side = PositionSide.SHORT then t else e.last_signal_short_ms) := by
  simp only [evaluate] at h
  split at h
  · simp at h
  · split at h
    · simp at h
    · split at h
      · simp at h
      · split at h
        · simp at h
        · split at h
          · simp at h
          · simp only [Prod.mk.injEq] at h
            rw [← h.2]
            exact ⟨rfl, rfl⟩

lemma evaluate_none_of_throttled (default_interval : Int) (cfg : SymbolConfig)
    (e : EngineState) (side : PositionSide) (position : Position) (t : Int)
    (h : is_throttled default_interval cfg e side t = true) :
    evaluate default_interval cfg e side position t = (none, e) := by
  simp only [evaluate]
  split
  · rfl
  · simp [h]

/-- C7 (amended: the emission time must be nonzero, because the source stores
the raw timestamp in `_last_signal_ms` and treats a stored `0` as "never
signalled"): once `evaluate` emits a signal for a (symbol, side) at time
`t ≠ 0`, every later call on that key less than `min_signal_interval_ms`
after `t` returns `None` and leaves the engine unchanged — hence any run of
such calls emits nothing — a call at least the interval after `t` is not
throttled, and the other side's throttle is unaffected by the emission. -/
theorem evaluate_throttle (default_interval : Int) (cfg : SymbolConfig)
    (e : EngineState) (side : PositionSide) (position : Position) (t : Int)
    (sig : ExitSignal) (e' : EngineState)
    (h : evaluate default_interval cfg e side position t = (some sig, e'))
    (ht : t ≠ 0) :
    (∀ (position' : Position) (t' : Int),
        t' - t < cfg.min_signal_interval_ms.getD default_interval →
        evaluate default_interval cfg e' side position' t' = (none, e')) ∧
    (∀ (calls : List (Position × Int)),
        (∀ c ∈ calls, c.2 - t < cfg.min_signal_interval_ms.getD default_interval) →
        (evaluate_run default_interval cfg e' side calls).1
            = List.replicate calls.length none ∧
          (evaluate_run default_interval cfg e' side calls).2 = e') ∧
    (∀ t' : Int, cfg.min_signal_interval_ms.getD default_interval ≤ t' - t →
        is_throttled default_interval cfg e' side t' = false) ∧
    (∀ t' : Int, is_throttled default_interval cfg e' (otherSide side) t'
        = is_throttled default_interval cfg e (otherSide side) t') := by
  obtain ⟨hL, hS⟩ := evaluate_emit_state default_interval cfg e side position t sig e' h
  have hlast : last_signal_ms e' side = t := by
    cases side
    · simpa [last_signal_ms] using hL
    · simpa [last_signal_ms] using hS
  have hother : last_signal_ms e' (otherSide side)
      = last_signal_ms e (otherSide side) := by
    cases side
    · simpa [last_signal_ms, otherSide] using hS
    · simpa [last_signal_ms, otherSide] using hL
  have hthr : ∀ t' : Int,
      t' - t < cfg.min_signal_interval_ms.getD default_interval →
      is_throttled default_interval cfg e' side t' = true := by
    intro t' hlt
    simp only [is_throttled, hlast]
    rw [if_neg ht]
    simpa using hlt
  have hone : ∀ (position' : Position) (t' : Int),
      t' - t < cfg.min_signal_interval_ms.getD default_interval →
      evaluate default_interval cfg e' side position' t' = (none, e') :=
    fun position' t' hlt =>
      evaluate_none_of_throttled default_interval cfg e' side position' t' (hthr t' hlt)
  refine ⟨hone, ?_, ?_, ?_⟩
  · intro calls
    induction calls with
    | nil => intro _; exact ⟨rfl, rfl⟩
    | cons c cs ih =>
      intro hcalls
      have h1 := hone c.1 c.2 (hcalls c (List.mem_cons_self c cs))
      have ih' := ih (fun c' hc' => hcalls c' (List.mem_cons_of_mem c hc'))
      simp only [evaluate_run, h1]
      rw [List.length_cons, List.replicate_succ]
      exact ⟨congrArg (none :: ·) ih'.1, ih'.2⟩
  · intro t' hge
    simp only [is_throttled, hlast]
    rw [if_neg ht]
    simp only [decide_eq_false_iff_not, not_lt]
    exact hge
  · intro t'
    simp only [is_throttled, hother]

/-- C7 counterexample to the claim as stated: a signal emitted at time `t = 0`
stores the sentinel value 0, so a call 100 ms later (interval 200 ms) emits a
second signal instead of returning `None`. -/
theorem evaluate_throttle_counterexample :
    ((evaluate 200 ⟨none, none, [], []⟩
        ⟨some ⟨⟨2, 3, 2, some 1, 0, true⟩, true, true, []⟩, 0, 0⟩
        PositionSide.LONG ⟨1, 1, 0, 1, none, none⟩ 0).1).isSome = true ∧
    (100 : Int) - 0 < 200 ∧
    ((evaluate 200 ⟨none, none, [], []⟩
        (evaluate 200 ⟨none, none, [], []⟩
          ⟨some ⟨⟨2, 3, 2, some 1, 0, true⟩, true, true, []⟩, 0, 0⟩
          PositionSide.LONG ⟨1, 1, 0, 1, none, none⟩ 0).2
        PositionSide.LONG ⟨1, 1, 0, 1, none, none⟩ 100).1).isSome = true := by
  refine ⟨?_, by norm_num, ?_⟩ <;>
    norm_num [evaluate, is_throttled, last_signal_ms, check_long_exit,
      compute_accel_ret, select_accel_mult, compute_roi, select_roi_mult]

/-- C7 witness: emission at `t = 1000` with interval 200; the call at 1100 is
throttled to `None` with unchanged state. -/
theorem evaluate_throttle_witness :
    evaluate 200 ⟨none, none, [], []⟩
        ⟨some ⟨⟨2, 3, 2, some 1, 0, true⟩, true, true, []⟩, 0, 0⟩
        PositionSide.LONG ⟨1, 1, 0, 1, none, none⟩ 1000
      = (some ⟨PositionSide.LONG, SignalReason.LONG_PRIMARY, 1000, 2, 3, 2, 1, 1,
            some 0, none⟩,
         ⟨some ⟨⟨2, 3, 2, some 1, 0, true⟩, true, true, []⟩, 1000, 0⟩) ∧
    (1000 : Int) ≠ 0 ∧
    evaluate 200 ⟨none, none, [], []⟩
        ⟨some ⟨⟨2, 3, 2, some 1, 0, true⟩, true, true, []⟩, 1000, 0⟩
        PositionSide.LONG ⟨1, 1, 0, 1, none, none⟩ 1100
      = (none, ⟨some ⟨⟨2, 3, 2, some 1, 0, true⟩, true, true, []⟩, 1000, 0⟩) := by
  have hemit : evaluate 200 ⟨none, none, [], []⟩
      ⟨some ⟨⟨2, 3, 2, some 1, 0, true⟩, true, true, []⟩, 0, 0⟩
      PositionSide.LONG ⟨1, 1, 0, 1, none, none⟩ 1000
      = (some ⟨PositionSide.LONG, SignalReason.LONG_PRIMARY, 1000, 2, 3, 2, 1, 1,
            some 0, none⟩,
         ⟨some ⟨⟨2, 3, 2, some 1, 0, true⟩, true, true, []⟩, 1000, 0⟩) := by
    norm_num [evaluate, is_throttled, last_signal_ms, check_long_exit,
      compute_accel_ret, select_accel_mult, compute_roi, select_roi_mult]
    decide
  refine ⟨hemit, by norm_num, ?_⟩
  have hmain := evaluate_throttle 200 ⟨none, none, [], []⟩
    ⟨some ⟨⟨2, 3, 2, some 1, 0, true⟩, true, true, []⟩, 0, 0⟩
    PositionSide.LONG ⟨1, 1, 0, 1, none, none⟩ 1000
    ⟨PositionSide.LONG, SignalReason.LONG_PRIMARY, 1000, 2, 3, 2, 1, 1, some 0, none⟩
    ⟨some ⟨⟨2, 3, 2, some 1, 0, true⟩, true, true, []⟩, 1000, 0⟩
    hemit (by norm_num)
  exact hmain.1 ⟨1, 1, 0, 1, none, none⟩ 1100 (by decide)

lemma dropWhile_cutoff_bound (cutoff : Int) :
    ∀ (h : List (Int × ℚ)), h.Pairwise (fun a b => a.1 ≤ b.1) →
      ∀ en ∈ h.dropWhile (fun x => decide (x.1 < cutoff)), cutoff ≤ en.1 := by
  intro h
  induction h with
  | nil => intro _ en hen; simp at hen
  | cons a t ih =>
    intro hp en hen
    rw [List.dropWhile_cons] at hen
    by_cases hc : a.1 < cutoff
    · rw [if_pos (by simpa using hc)] at hen
      exact ih (List.pairwise_cons.mp hp).2 en hen
    · rw [if_neg (by simpa using hc)] at hen
      rcases List.mem_cons.mp hen with hen | hen
      · rw [hen]; omega
      · have := (List.pairwise_cons.mp hp).1 en hen
        omega

lemma dropWhile_retains (cutoff : Int) (h : List (Int × ℚ)) :
    ∀ en ∈ h, ¬ en.1 < cutoff →
      en ∈ h.dropWhile (fun x => decide (x.1 < cutoff)) := by
  intro en hen hcut
  have hsplit := List.takeWhile_append_dropWhile
    (fun x : Int × ℚ => decide (x.1 < cutoff)) h
  rw [← hsplit] at hen
  rcases List.mem_append.mp hen with hmem | hmem
  · have := List.mem_takeWhile_imp hmem
    exact absurd (of_decide_eq_true this) hcut
  · exact hmem

lemma accel_fold_ge (p : ℚ × Int → Bool) :
    ∀ (tiers : List (ℚ × Int)) (acc : Int),
      acc ≤ tiers.foldl
        (fun best tier => if p tier then max best (max tier.2 1) else best) acc := by
  intro tiers
  induction tiers with
  | nil => intro acc; simp
  | cons a t ih =>
    intro acc
    rw [List.foldl_cons]
    by_cases hp : p a
    · rw [if_pos hp]
      exact le_trans (le_max_left _ _) (ih _)
    · rw [if_neg hp]
      exact ih acc

lemma accel_fold_bound (p : ℚ × Int → Bool) :
    ∀ (tiers : List (ℚ × Int)) (acc : Int) (tier : ℚ × Int),
      tier ∈ tiers → p tier = true →
      max tier.2 1 ≤ tiers.foldl
        (fun best t => if p t then max best (max t.2 1) else best) acc := by
  intro tiers
  induction tiers with
  | nil => intro acc tier htier; simp at htier
  | cons a t ih =>
    intro acc tier htier hmatch
    rw [List.foldl_cons]
    rcases List.mem_cons.mp htier with htier | htier
    · subst htier
      rw [if_pos hmatch]
      exact le_trans (le_max_right _ _) (accel_fold_ge p t _)
    · by_cases hp : p a
      · rw [if_pos hp]; exact ih _ tier htier hmatch
      · rw [if_neg hp]; exact ih _ tier htier hmatch

lemma accel_fold_attain (p : ℚ × Int → Bool) :
    ∀ (tiers : List (ℚ × Int)) (acc : Int),
      tiers.foldl (fun best t => if p t then max best (max t.2 1) else best) acc
          = acc ∨
        ∃ tier ∈ tiers, p tier = true ∧
          tiers.foldl (fun best t => if p t then max best (max t.2 1) else best) acc
            = max tier.2 1 := by
  intro tiers
  induction tiers with
  | nil => intro acc; left; rfl
  | cons a t ih =>
    intro acc
    rw [List.foldl_cons]
    by_cases hp : p a
    · rw [if_pos hp]
      rcases ih (max acc (max a.2 1)) with hfold | ⟨tier, htier, hm, hfold⟩
      · rw [hfold]
        rcases max_cases acc (max a.2 1) with ⟨hm2, _⟩ | ⟨hm2, _⟩
        · left; exact hm2
        · right; exact ⟨a, List.mem_cons_self a t, hp, hm2⟩
      · right
        exact ⟨tier, List.mem_cons_of_mem a htier, hm, hfold⟩
    · rw [if_neg hp]
      rcases ih acc with hfold | ⟨tier, htier, hm, hfold⟩
      · left; exact hfold
      · right; exact ⟨tier, List.mem_cons_of_mem a htier, hm, hfold⟩

/-- C9: whenever `_compute_accel_ret` produces a window return over a
time-ordered trade history, the history it leaves behind consists of the
retained trades at or after `now − window` (entries strictly older are the
evicted ones), the return is `last / earliest_retained − 1` where the first
retained entry is oldest, and `_select_accel_mult` chooses the maximum
multiplier over exactly the tiers a long position matches with `ret ≥ θ` and a
short position with `ret ≤ −θ`, never below 1. -/
theorem accel_ret_and_mult (cfg : SymbolConfig) (current_ms : Int)
    (last_price : ℚ) (history h' : List (Int × ℚ)) (r : ℚ)
    (hsort : history.Pairwise (fun a b => a.1 ≤ b.1))
    (h : compute_accel_ret cfg current_ms last_price history = (some r, h')) :
    (∀ en ∈ h', current_ms - cfg.accel_window_ms.getD 2000 ≤ en.1) ∧
    (∀ en ∈ history,
      ¬ en.1 < current_ms - cfg.accel_window_ms.getD 2000 → en ∈ h') ∧
    (∃ e0 rest, h' = e0 :: rest ∧ 0 < e0.2 ∧ r = last_price / e0.2 - 1 ∧
      ∀ en ∈ h', e0.1 ≤ en.1) ∧
    (∀ side, 1 ≤ select_accel_mult cfg side (some r)) ∧
    (∀ tier ∈ cfg.accel_tiers,
      (tier.1 ≤ r → tier.2 ≤ select_accel_mult cfg PositionSide.LONG (some r)) ∧
      (r ≤ -tier.1 → tier.2 ≤ select_accel_mult cfg PositionSide.SHORT (some r))) ∧
    (select_accel_mult cfg PositionSide.LONG (some r) = 1 ∨
      ∃ tier ∈ cfg.accel_tiers, tier.1 ≤ r ∧
        select_accel_mult cfg PositionSide.LONG (some r) = max tier.2 1) ∧
    (select_accel_mult cfg PositionSide.SHORT (some r) = 1 ∨
      ∃ tier ∈ cfg.accel_tiers, r ≤ -tier.1 ∧
        select_accel_mult cfg PositionSide.SHORT (some r) = max tier.2 1) := by
  simp only [compute_accel_ret] at h
  split at h
  · simp at h
  · split at h
    · simp at h
    · split at h
      · simp at h
      · rename_i e0 rest heq
        split at h
        · simp at h
        · rename_i hpos
          simp only [Prod.mk.injEq, Option.some.injEq] at h
          obtain ⟨hr, hh'⟩ := h
          have hsub : List.Sublist h' history := by
            rw [← hh', ← heq]
            exact List.dropWhile_sublist _
          have hsorted' : h'.Pairwise (fun a b => a.1 ≤ b.1) :=
            hsort.sublist hsub
          have hwin : ∀ en ∈ h',
              current_ms - cfg.accel_window_ms.getD 2000 ≤ en.1 := by
            intro en hen
            refine dropWhile_cutoff_bound _ history hsort en ?_
            rw [heq, hh']
            exact hen
          refine ⟨hwin, ?_, ?_, ?_, ?_, ?_, ?_⟩
          · intro en hen hcut
            rw [← hh', ← heq]
            exact dropWhile_retains _ history en hen hcut
          · refine ⟨e0, rest, hh'.symm, not_le.mp hpos, hr.symm, ?_⟩
            intro en hen
            rw [← hh'] at hsorted'
            rcases List.mem_cons.mp (hh' ▸ hen) with hen' | hen'
            · rw [hen']
            · exact (List.pairwise_cons.mp hsorted').1 en hen'
          · intro side
            cases side
            · exact accel_fold_ge (fun tier => decide (tier.1 ≤ r)) cfg.accel_tiers 1
            · exact accel_fold_ge (fun tier => decide (r ≤ -tier.1)) cfg.accel_tiers 1
          · intro tier htier
            constructor
            · intro hm
              have hb := accel_fold_bound (fun tier => decide (tier.1 ≤ r))
                cfg.accel_tiers 1 tier htier (by simpa using hm)
              exact le_trans (le_max_left _ _) hb
            · intro hm
              have hb := accel_fold_bound (fun tier => decide (r ≤ -tier.1))
                cfg.accel_tiers 1 tier htier (by simpa using hm)
              exact le_trans (le_max_left _ _) hb
          · rcases accel_fold_attain (fun tier => decide (tier.1 ≤ r))
              cfg.accel_tiers 1 with ha | ⟨tier, htier, hm, ha⟩
            · left; exact ha
            · right; exact ⟨tier, htier, by simpa using hm, ha⟩
          · rcases accel_fold_attain (fun tier => decide (r ≤ -tier.1))
              cfg.accel_tiers 1 with ha | ⟨tier, htier, hm, ha⟩
            · left; exact ha
            · right; exact ⟨tier, htier, by simpa using hm, ha⟩

/-- C9 witness: window 2000 ms, tier `(0.01, 2)`, history `[(0,1),(1500,2)]`,
evaluated at `now = 2000` with last price 2: the return is `2/1 − 1 = 1` over
the oldest retained entry. -/
theorem accel_ret_and_mult_witness :
    ([((0 : Int), (1 : ℚ)), (1500, 2)].Pairwise (fun a b => a.1 ≤ b.1) ∧
      compute_accel_ret ⟨none, some 2000, [(1/100, 2)], []⟩ 2000 2
          [(0, 1), (1500, 2)]
        = (some 1, [(0, 1), (1500, 2)])) ∧
    (∃ e0 rest, ([((0 : Int), (1 : ℚ)), (1500, 2)]) = e0 :: rest ∧ 0 < e0.2 ∧
      (1 : ℚ) = 2 / e0.2 - 1 ∧
      ∀ en ∈ [((0 : Int), (1 : ℚ)), (1500, 2)], e0.1 ≤ en.1) := by
  have hsort : [((0 : Int), (1 : ℚ)), (1500, 2)].Pairwise (fun a b => a.1 ≤ b.1) := by
    decide
  have hcomp : compute_accel_ret ⟨none, some 2000, [(1/100, 2)], []⟩ 2000 2
      [(0, 1), (1500, 2)] = (some 1, [(0, 1), (1500, 2)]) := by
    norm_num [compute_accel_ret]
  exact ⟨⟨hsort, hcomp⟩,
    (accel_ret_and_mult ⟨none, some 2000, [(1/100, 2)], []⟩ 2000 2
      [(0, 1), (1500, 2)] [(0, 1), (1500, 2)] 1 hsort hcomp).2.2.1⟩

/-! ## Protective-stop manager (`src/risk/protective_stop.py`) -/

/-- Order status (`src/models.py` OrderStatus; modelled from the spec: the
execution engine's working statuses plus the terminal ones
filled/canceled/expired/rejected, which are the only values the repository's
code and tests use). -/
inductive OrderStatus
  | NEW
  | PARTIALLY_FILLED
  | FILLED
  | CANCELED
  | REJECTED
  | EXPIRED
deriving DecidableEq, Repr

inductive OrderSide
  | BUY
  | SELL
deriving DecidableEq, Repr

/-- Order type (`src/models.py` OrderType; only the members the manager uses). -/
inductive OrderType
  | LIMIT
  | MARKET
  | STOP_MARKET
deriving DecidableEq, Repr

/-- `SymbolRules` (`src/models.py`, fields per the spec's instrument rules). -/
structure SymbolRules where
  tick_size : ℚ
  step_size : ℚ
  min_qty : ℚ
  min_notional : ℚ
deriving DecidableEq, Repr

/-- `ProtectiveStopState` (`src/risk/protective_stop.py`). -/
structure ProtectiveStopState where
  symbol : String
  position_side : PositionSide
  client_order_id : String
  order_id : Option String
  stop_price : Option ℚ
deriving DecidableEq, Repr

/-- An open order as the manager sees it after its `_extract_*` helpers have
flattened the ccxt dict/`info` shapes: the spec's uniform order shape. -/
structure VenueOrder where
  order_id : Option String
  client_order_id : Option String
  position_side : Option PositionSide
  stop_price : Option ℚ
  order_type : Option String
  close_position : Option Bool
deriving DecidableEq, Repr

/-- The positivity filter at the end of `_extract_stop_price`: a non-positive
trigger price counts as absent. -/
def extract_stop_price (o : VenueOrder) : Option ℚ :=
  match o.stop_price with
  | none => none
  | some v => if 0 < v then some v else none

/-- `OrderIntent` (`src/models.py`, fields as built by `_sync_side`). -/
structure OrderIntent where
  symbol : String
  side : OrderSide
  position_side : PositionSide
  qty : ℚ
  order_type : OrderType
  stop_price : Option ℚ
  close_position : Bool
  reduce_only : Bool
  client_order_id : String
  is_risk : Bool
deriving DecidableEq, Repr

/-- A venue round-trip issued by `_sync_side`, in call order. -/
inductive VenueCall
  | cancel (order_id : String)
  | place (intent : OrderIntent)
deriving DecidableEq, Repr

def VenueCall.isPlace : VenueCall → Bool
  | VenueCall.place _ => true
  | VenueCall.cancel _ => false

/-- Modelled from the spec: `symbol_to_ws_stream` from `src/utils/helpers.py`
(not in the source tree) encodes an instrument for stream/client-id use:
`BTC/USDT:USDT ↦ btcusdt`. -/
def symbol_to_ws_stream (s : String) : String :=
  String.mk (((s.data.takeWhile (fun c => c ≠ ':')).filter
    (fun c => c ≠ '/')).map Char.toLower)

/-- Modelled from the spec: the "short hash" fallback of the client-order-id
stem (Python's `hash` is implementation-defined, so a concrete 28-bit string
hash stands in for it). -/
def ws_symbol_hash (s : String) : Nat :=
  s.data.foldl (fun a c => (a * 31 + c.toNat) % 268435456) 7

/-- Render a natural number as 7 lower-case hex digits (`{:07x}`). -/
def hex7 (n : Nat) : String :=
  let ds := Nat.toDigits 16 n
  String.mk (List.replicate (7 - ds.length) '0' ++ ds)

/-- `ProtectiveStopManager._build_client_order_id_prefix`: the per-(symbol,
side) ownership stem of client order ids. -/
def own_cid_stem (p : String) (symbol : String) (side : PositionSide) : String :=
  let ws := symbol_to_ws_stream symbol
  let side_code := if side = PositionSide.LONG then "L" else "S"
  let stem := p ++ ws ++ "-" ++ side_code
  if 30 ≤ stem.length then p ++ hex7 (ws_symbol_hash ws) ++ "-" ++ side_code
  else stem

/-- `ProtectiveStopManager._match_client_order_id`. -/
def match_client_order_id (p : String) (cid : String) (symbol : String)
    (side : PositionSide) : Bool :=
  (own_cid_stem p symbol side).data.isPrefixOf cid.data

/-- The manager's `_states` entries for one symbol (both sides). -/
structure StopStates where
  long : Option ProtectiveStopState
  short : Option ProtectiveStopState
deriving DecidableEq, Repr

def slot (st : StopStates) : PositionSide → Option ProtectiveStopState
  | PositionSide.LONG => st.long
  | PositionSide.SHORT => st.short

def set_slot (st : StopStates) : PositionSide → Option ProtectiveStopState → StopStates
  | PositionSide.LONG, v => { st with long := v }
  | PositionSide.SHORT, v => { st with short := v }

/-- `OrderUpdate` (`src/models.py`, the fields `on_order_update` reads;
`filled_qty`/`avg_price` are not consulted). -/
structure OrderUpdate where
  symbol : String
  order_id : String
  client_order_id : Option String
  status : OrderStatus
deriving DecidableEq, Repr

/-- `AlgoOrderUpdate` (`src/models.py`, the fields `on_algo_order_update`
reads). -/
structure AlgoOrderUpdate where
  symbol : String
  algo_id : String
  client_algo_id : String
  status : String
deriving DecidableEq, Repr

/-- The terminal statuses checked by `on_order_update`. -/
def order_terminal : OrderStatus → Bool
  | OrderStatus.FILLED => true
  | OrderStatus.CANCELED => true
  | OrderStatus.REJECTED => true
  | OrderStatus.EXPIRED => true
  | _ => false

/-- The algo-order terminal statuses checked by `on_algo_order_update`
(`status.upper()` against the six-element set). -/
def algo_terminal (s : String) : Bool :=
  let u := String.mk (s.data.map Char.toUpper)
  u = "CANCELED" || u = "FILLED" || u = "TRIGGERED" || u = "EXPIRED"
    || u = "REJECTED" || u = "FINISHED"

/-- One iteration of `on_order_update`'s side loop.  Python's
`not update.client_order_id` is true for both `None` and the empty string. -/
def on_order_update_side (p : String) (st : StopStates) (u : OrderUpdate)
    (side : PositionSide) : StopStates :=
  match slot st side with
  | none => st
  | some _ =>
    match u.client_order_id with
    | none => st
    | some cid =>
      if cid = "" then st
      else if ¬ match_client_order_id p cid u.symbol side then st
      else if order_terminal u.status then set_slot st side none
      else st

/-- `ProtectiveStopManager.on_order_update` (logging dropped). -/
def on_order_update (p : String) (st : StopStates) (u : OrderUpdate) :
    StopStates :=
  on_order_update_side p (on_order_update_side p st u PositionSide.LONG) u
    PositionSide.SHORT

/-- One iteration of `on_algo_order_update`'s side loop. -/
def on_algo_order_update_side (p : String) (st : StopStates)
    (u : AlgoOrderUpdate) (side : PositionSide) : StopStates :=
  match slot st side with
  | none => st
  | some _ =>
    if match_client_order_id p u.client_algo_id u.symbol side then
      set_slot st side none
    else st

/-- `ProtectiveStopManager.on_algo_order_update` (logging dropped). -/
def on_algo_order_update (p : String) (st : StopStates) (u : AlgoOrderUpdate) :
    StopStates :=
  if ¬ algo_terminal u.status then st
  else
    on_algo_order_update_side p (on_algo_order_update_side p st u PositionSide.LONG)
      u PositionSide.SHORT

/-- `position is not None and abs(position.position_amt) > 0`. -/
def has_position_of (position : Option Position) : Bool :=
  match position with
  | none => false
  | some pos => decide (0 < |pos.position_amt|)

/-- `ProtectiveStopManager._sync_side`, embedded as a pure function.

The `await` round-trips become an explicit call trace (`List VenueCall`, in
call order) and two oracles describe the venue's responses: `cancel_ok oid`
tells whether `cancel_order` succeeds (an exception in the source) and
`place_result` is `result.order_id` of a successful `place_order` (or `none`
when `result.success`/`order_id` is falsy).  `desired_cid` stands for the
time-derived `build_client_order_id` output.  `prev` is the `_states` entry
for this (symbol, side); the second component of the result is that entry
after the call.  Logging is dropped. -/
def sync_side (symbol : String) (side : PositionSide) (rules : SymbolRules)
    (position : Option Position) (enabled : Bool) (dist_to_liq : ℚ)
    (existing_orders : List VenueOrder)
    (has_external_stop : Bool) (has_external_stop_hint : Bool)
    (desired_cid : String)
    (cancel_ok : String → Bool) (place_result : Option String)
    (prev : Option ProtectiveStopState) :
    List VenueCall × Option ProtectiveStopState :=
  -- duplicate owned orders: keep the first, cancel the rest
  let keep_order := existing_orders.head?
  let extra_cancels := (existing_orders.drop 1).filterMap
    (fun o => o.order_id.map VenueCall.cancel)
  let has_position := has_position_of position
  if !enabled || !has_position then
    -- disabled or flat: cancel the kept stop (success or not) and clear state
    let cancels := match keep_order with
      | none => []
      | some o => match o.order_id with
        | none => []
        | some oid => [VenueCall.cancel oid]
    (extra_cancels ++ cancels, none)
  else
    match position with
    | none => (extra_cancels, prev)
    | some pos =>
      if has_external_stop then
        -- external close-position stop takes over: cancel ours, clear state;
        -- a failed cancel returns before the state is cleared
        match keep_order with
        | some o =>
          (match o.order_id with
           | some oid =>
             if cancel_ok oid then (extra_cancels ++ [VenueCall.cancel oid], none)
             else (extra_cancels ++ [VenueCall.cancel oid], prev)
           | none => (extra_cancels, none))
        | none => (extra_cancels, none)
      else if has_external_stop_hint then (extra_cancels, prev)
      else
        match pos.liquidation_price with
        | none => (extra_cancels, prev)
        | some liq =>
          if liq ≤ 0 then (extra_cancels, prev)
          else
            match compute_stop_price side liq dist_to_liq rules.tick_size with
            | none => (extra_cancels, prev)
            | some desired_stop_price =>
              let existing_order_id := keep_order.bind (fun o => o.order_id)
              let existing_cid := keep_order.bind (fun o => o.client_order_id)
              let place_after := fun (acts : List VenueCall) =>
                let intent : OrderIntent :=
                  { symbol := symbol,
                    side := if side = PositionSide.LONG then OrderSide.SELL
                      else OrderSide.BUY,
                    position_side := side, qty := 0,
                    order_type := OrderType.STOP_MARKET,
                    stop_price := some desired_stop_price,
                    close_position := true, reduce_only := true,
                    client_order_id := desired_cid, is_risk := true }
                match place_result with
                | none => (acts ++ [VenueCall.place intent], prev)
                | some oid2 =>
                  (acts ++ [VenueCall.place intent],
                   some { symbol := symbol, position_side := side,
                          client_order_id := desired_cid, order_id := some oid2,
                          stop_price := some desired_stop_price })
              let replace_path :=
                match existing_order_id with
                | some oid =>
                  if cancel_ok oid then
                    place_after (extra_cancels ++ [VenueCall.cancel oid])
                  else (extra_cancels ++ [VenueCall.cancel oid], prev)
                | none => place_after extra_cancels
              match keep_order, keep_order.bind extract_stop_price with
              | some _, some esp =>
                let existing_norm := round_to_tick esp rules.tick_size
                let desired_norm := round_to_tick desired_stop_price rules.tick_size
                if (side = PositionSide.LONG ∧ desired_norm < existing_norm) ∨
                    (side = PositionSide.SHORT ∧ existing_norm < desired_norm) then
                  -- desired is looser: tighten-only, keep the venue order
                  (extra_cancels,
                   some { symbol := symbol, position_side := side,
                          client_order_id := existing_cid.getD desired_cid,
                          order_id := existing_order_id,
                          stop_price := some existing_norm })
                else if existing_norm = desired_norm then
                  (extra_cancels,
                   some { symbol := symbol, position_side := side,
                          client_order_id := existing_cid.getD desired_cid,
                          order_id := existing_order_id,
                          stop_price := some existing_norm })
                else replace_path
              | _, _ => replace_path

lemma mem_order_cancels_isPlace (l : List VenueOrder) :
    ∀ a ∈ l.filterMap (fun o => o.order_id.map VenueCall.cancel),
      a.isPlace = false := by
  intro a ha
  rcases List.mem_filterMap.mp ha with ⟨o, _, hmap⟩
  rcases ho : o.order_id with _ | oid
  · rw [ho] at hmap
    simp at hmap
  · rw [ho] at hmap
    simp only [Option.map_some'] at hmap
    rw [← Option.some.injEq] at hmap
    cases hmap
    rfl

/-- C6: when the side is flat (no position entry or zero amount) or the
feature is disabled, `_sync_side` clears the local state, issues no place
call, and cancels the remaining owned stop when one exists (no call at all
when none does). -/
theorem sync_side_flat_or_disabled (symbol : String) (side : PositionSide)
    (rules : SymbolRules) (position : Option Position) (enabled : Bool)
    (dist_to_liq : ℚ) (existing_orders : List VenueOrder)
    (has_external_stop has_external_stop_hint : Bool) (desired_cid : String)
    (cancel_ok : String → Bool) (place_result : Option String)
    (prev : Option ProtectiveStopState)
    (r : List VenueCall × Option ProtectiveStopState)
    (hflat : enabled = false ∨ position = none ∨
      ∃ pos, position = some pos ∧ |pos.position_amt| = 0)
    (hr : sync_side symbol side rules position enabled dist_to_liq
      existing_orders has_external_stop has_external_stop_hint desired_cid
      cancel_ok place_result prev = r) :
    r.2 = none ∧
    (∀ a ∈ r.1, a.isPlace = false) ∧
    (existing_orders = [] → r.1 = []) ∧
    (∀ o oid, existing_orders = [o] → o.order_id = some oid →
      r.1 = [VenueCall.cancel oid]) := by
  have hcond : (!enabled || !has_position_of position) = true := by
    rcases hflat with h | h | ⟨pos, hpos, hamt⟩
    · simp [h]
    · simp [h, has_position_of]
    · simp [hpos, has_position_of, hamt]
  rw [sync_side.eq_def] at hr
  simp only [hcond, eq_self_iff_true, if_true] at hr
  subst hr
  refine ⟨rfl, ?_, ?_, ?_⟩
  · intro a ha
    rcases List.mem_append.mp ha with ha | ha
    · exact mem_order_cancels_isPlace _ a ha
    · rcases hk : existing_orders.head? with _ | o
      · rw [hk] at ha
        simp at ha
      · rw [hk] at ha
        rcases hoid : o.order_id with _ | oid
        · simp [hoid] at ha
        · simp [hoid] at ha
          rw [ha]
          rfl
  · intro hnil
    rw [hnil]
    rfl
  · intro o oid hone hoid
    rw [hone]
    simp only [List.head?_cons, List.drop_one, List.tail_cons, List.filterMap_nil,
      List.nil_append, hoid, Option.map_some']

/-- C6 witness: a flat side (no position entry) with one owned stop on the
venue: the reconciliation cancels it, clears state, and places nothing. -/
theorem sync_side_flat_or_disabled_witness :
    ((true : Bool) = false ∨ (none : Option Position) = none ∨
      ∃ pos, (none : Option Position) = some pos ∧ |pos.position_amt| = 0) ∧
    sync_side "BTC/USDT:USDT" PositionSide.LONG ⟨1/10, 1/1000, 1/1000, 5⟩ none
        true (1/100)
        [⟨some "123", some "vq", some PositionSide.LONG, some (1011/10),
          some "STOP_MARKET", some true⟩]
        false false "cid" (fun _ => true) none none
      = ([VenueCall.cancel "123"], none) ∧
    (([VenueCall.cancel "123"],
        (none : Option ProtectiveStopState)).2 = none ∧
      (∀ a ∈ ([VenueCall.cancel "123"],
          (none : Option ProtectiveStopState)).1, a.isPlace = false) ∧
      ([⟨some "123", some "vq", some PositionSide.LONG, some (1011/10),
          some "STOP_MARKET", some true⟩] = ([] : List VenueOrder) →
        ([VenueCall.cancel "123"],
          (none : Option ProtectiveStopState)).1 = []) ∧
      (∀ (o : VenueOrder) (oid : String),
        [⟨some "123", some "vq", some PositionSide.LONG, some (1011/10),
          some "STOP_MARKET", some true⟩] = [o] → o.order_id = some oid →
        ([VenueCall.cancel "123"],
          (none : Option ProtectiveStopState)).1 = [VenueCall.cancel oid])) := by
  have hr : sync_side "BTC/USDT:USDT" PositionSide.LONG ⟨1/10, 1/1000, 1/1000, 5⟩
      none true (1/100)
      [⟨some "123", some "vq", some PositionSide.LONG, some (1011/10),
        some "STOP_MARKET", some true⟩]
      false false "cid" (fun _ => true) none none
      = ([VenueCall.cancel "123"], none) := rfl
  exact ⟨Or.inr (Or.inl rfl), hr,
    sync_side_flat_or_disabled "BTC/USDT:USDT" PositionSide.LONG
      ⟨1/10, 1/1000, 1/1000, 5⟩ none true (1/100)
      [⟨some "123", some "vq", some PositionSide.LONG, some (1011/10),
        some "STOP_MARKET", some true⟩]
      false false "cid" (fun _ => true) none none
      ([VenueCall.cancel "123"], none) (Or.inr (Or.inl rfl)) hr⟩

/-- C1: reconciling a (symbol, side) that holds exactly one owned protective
stop (with extractable order id and positive trigger price), with the feature
enabled, a live position, a positive liquidation price, no external
close-position stop and no external-stop hint: if the new tick-normalized
stop is looser than the existing one (long: strictly lower; short: strictly
higher) the manager keeps the venue order and issues no call; if equal it
keeps it; if tighter it cancels the old order and only then places the new
stop, and a failed cancel places nothing. -/
theorem sync_side_tighten_only (symbol : String) (side : PositionSide)
    (rules : SymbolRules) (pos : Position) (dist_to_liq : ℚ) (o : VenueOrder)
    (oid : String) (esp liq s : ℚ) (desired_cid : String)
    (cancel_ok : String → Bool) (place_result : Option String)
    (prev : Option ProtectiveStopState)
    (hamt : 0 < |pos.position_amt|)
    (hliq : pos.liquidation_price = some liq)
    (hoid : o.order_id = some oid)
    (hesp : extract_stop_price o = some esp)
    (hcomp : compute_stop_price side liq dist_to_liq rules.tick_size = some s) :
    (((side = PositionSide.LONG ∧
        round_to_tick s rules.tick_size < round_to_tick esp rules.tick_size) ∨
      (side = PositionSide.SHORT ∧
        round_to_tick esp rules.tick_size < round_to_tick s rules.tick_size)) →
      sync_side symbol side rules (some pos) true dist_to_liq [o] false false
          desired_cid cancel_ok place_result prev
        = ([], some { symbol := symbol, position_side := side,
                      client_order_id := (o.client_order_id).getD desired_cid,
                      order_id := some oid,
                      stop_price := some (round_to_tick esp rules.tick_size) })) ∧
    (round_to_tick esp rules.tick_size = round_to_tick s rules.tick_size →
      sync_side symbol side rules (some pos) true dist_to_liq [o] false false
          desired_cid cancel_ok place_result prev
        = ([], some { symbol := symbol, position_side := side,
                      client_order_id := (o.client_order_id).getD desired_cid,
                      order_id := some oid,
                      stop_price := some (round_to_tick esp rules.tick_size) })) ∧
    (((side = PositionSide.LONG ∧
        round_to_tick esp rules.tick_size < round_to_tick s rules.tick_size) ∨
      (side = PositionSide.SHORT ∧
        round_to_tick s rules.tick_size < round_to_tick esp rules.tick_size)) →
      (cancel_ok oid = true →
        (sync_side symbol side rules (some pos) true dist_to_liq [o] false false
            desired_cid cancel_ok place_result prev).1
          = [VenueCall.cancel oid,
             VenueCall.place { symbol := symbol,
                               side := if side = PositionSide.LONG then
                                 OrderSide.SELL else OrderSide.BUY,
                               position_side := side, qty := 0,
                               order_type := OrderType.STOP_MARKET,
                               stop_price := some s,
                               close_position := true, reduce_only := true,
                               client_order_id := desired_cid,
                               is_risk := true }]) ∧
      (cancel_ok oid = false →
        sync_side symbol side rules (some pos) true dist_to_liq [o] false false
            desired_cid cancel_ok place_result prev
          = ([VenueCall.cancel oid], prev))) := by
  have hps : has_position_of (some pos) = true := by
    simp [has_position_of, hamt]
  have hnle : ¬ liq ≤ 0 := by
    intro hle
    simp [compute_stop_price, hle] at hcomp
  refine ⟨?_, ?_, ?_⟩
  · intro hlo
    rw [sync_side.eq_def]
    simp [hps, hliq, hnle, hcomp, hesp, hoid, hlo]
  · intro heq
    have hnl : ¬ ((side = PositionSide.LONG ∧
        round_to_tick s rules.tick_size < round_to_tick esp rules.tick_size) ∨
      (side = PositionSide.SHORT ∧
        round_to_tick esp rules.tick_size < round_to_tick s rules.tick_size)) := by
      rw [heq]
      simp [lt_irrefl]
    rw [sync_side.eq_def]
    simp [hps, hliq, hnle, hcomp, hesp, hoid, hnl, heq]
  · intro htight
    rcases htight with ⟨hs, hlt⟩ | ⟨hs, hlt⟩
    · subst hs
      have hnl : ¬ ((PositionSide.LONG = PositionSide.LONG ∧
          round_to_tick s rules.tick_size < round_to_tick esp rules.tick_size) ∨
        (PositionSide.LONG = PositionSide.SHORT ∧
          round_to_tick esp rules.tick_size < round_to_tick s rules.tick_size)) := by
        simp [lt_asymm hlt]
      have hne : ¬ round_to_tick esp rules.tick_size
          = round_to_tick s rules.tick_size := ne_of_lt hlt
      constructor
      · intro hco
        rw [sync_side.eq_def]
        rcases place_result with _ | oid2 <;>
          simp [hps, hliq, hnle, hcomp, hesp, hoid, hnl, hne, hco, lt_asymm hlt]
      · intro hco
        rw [sync_side.eq_def]
        simp [hps, hliq, hnle, hcomp, hesp, hoid, hnl, hne, hco, lt_asymm hlt]
    · subst hs
      have hnl : ¬ ((PositionSide.SHORT = PositionSide.LONG ∧
          round_to_tick s rules.tick_size < round_to_tick esp rules.tick_size) ∨
        (PositionSide.SHORT = PositionSide.SHORT ∧
          round_to_tick esp rules.tick_size < round_to_tick s rules.tick_size)) := by
        simp [lt_asymm hlt]
      have hne : ¬ round_to_tick esp rules.tick_size
          = round_to_tick s rules.tick_size := ne_of_gt hlt
      constructor
      · intro hco
        rw [sync_side.eq_def]
        rcases place_result with _ | oid2 <;>
          simp [hps, hliq, hnle, hcomp, hesp, hoid, hnl, hne, hco, lt_asymm hlt]
      · intro hco
        rw [sync_side.eq_def]
        simp [hps, hliq, hnle, hcomp, hesp, hoid, hnl, hne, hco, lt_asymm hlt]

/-- C1 witness: the spec's S5 setup with existing stop 101.1, liq 100,
d = 0.01, tick 0.1: the recomputed stop equals the existing one after tick
normalization, so the venue order is kept with no calls. -/
theorem sync_side_tighten_only_witness :
    (0 < |((⟨1/100, 100, 0, 10, none, some 100⟩ : Position)).position_amt|) ∧
    ((⟨1/100, 100, 0, 10, none, some 100⟩ : Position)).liquidation_price
      = some 100 ∧
    ((⟨some "123", some "k1", some PositionSide.LONG, some (1011/10),
        some "STOP_MARKET", some true⟩ : VenueOrder)).order_id = some "123" ∧
    extract_stop_price ⟨some "123", some "k1", some PositionSide.LONG,
        some (1011/10), some "STOP_MARKET", some true⟩ = some (1011/10) ∧
    compute_stop_price PositionSide.LONG 100 (1/100) (1/10) = some (1011/10) ∧
    (round_to_tick (1011/10) (1/10) = round_to_tick (1011/10) (1/10) →
      sync_side "BTC/USDT:USDT" PositionSide.LONG ⟨1/10, 1/1000, 1/1000, 5⟩
          (some ⟨1/100, 100, 0, 10, none, some 100⟩) true (1/100)
          [⟨some "123", some "k1", some PositionSide.LONG, some (1011/10),
            some "STOP_MARKET", some true⟩]
          false false "cid" (fun _ => true) none none
        = ([], some { symbol := "BTC/USDT:USDT",
                      position_side := PositionSide.LONG,
                      client_order_id := (some "k1").getD "cid",
                      order_id := some "123",
                      stop_price := some (round_to_tick (1011/10) (1/10)) })) := by
  have hcomp : compute_stop_price PositionSide.LONG 100 (1/100) (1/10)
      = some (1011/10) := by
    have hc : ⌈(100 : ℚ) / (1 - 1/100) / (1/10)⌉ = 1011 := by
      rw [Int.ceil_eq_iff]
      constructor <;> norm_num
    simp only [compute_stop_price, round_up_to_tick]
    rw [if_neg (by norm_num : ¬ (100 : ℚ) ≤ 0),
      if_neg (by norm_num : ¬ ((1 : ℚ)/100 ≤ 0 ∨ (1 : ℚ) ≤ 1/100)),
      if_pos trivial, hc]
    norm_num
  have hesp : extract_stop_price ⟨some "123", some "k1", some PositionSide.LONG,
      some (1011/10), some "STOP_MARKET", some true⟩ = some (1011/10) := by
    norm_num [extract_stop_price]
  exact ⟨by norm_num, rfl, rfl, hesp, hcomp,
    (sync_side_tighten_only "BTC/USDT:USDT" PositionSide.LONG
      ⟨1/10, 1/1000, 1/1000, 5⟩ ⟨1/100, 100, 0, 10, none, some 100⟩ (1/100)
      ⟨some "123", some "k1", some PositionSide.LONG, some (1011/10),
        some "STOP_MARKET", some true⟩
      "123" (1011/10) 100 (1011/10) "cid" (fun _ => true) none none
      (by norm_num) rfl rfl hesp hcomp).2.1⟩

/-- C5: for a tracked (symbol, side) protective-stop state and an update whose
client order id matches that side's ownership stem, a terminal status removes
the state for that (symbol, side) (order updates: FILLED/CANCELED/REJECTED/
EXPIRED, the terminal members of `OrderStatus`; algo updates additionally
TRIGGERED/FINISHED as uppercased strings), while a non-terminal status leaves
the states untouched. -/
theorem on_update_terminal_clears (p : String) (st : StopStates)
    (u : OrderUpdate) (ua : AlgoOrderUpdate) (side : PositionSide)
    (s0 : ProtectiveStopState) (cid : String)
    (hstate : slot st side = some s0)
    (hcid : u.client_order_id = some cid) (hne : cid ≠ "")
    (hmatch : match_client_order_id p cid u.symbol side = true)
    (hmatcha : match_client_order_id p ua.client_algo_id ua.symbol side = true) :
    (order_terminal u.status = true →
      slot (on_order_update p st u) side = none) ∧
    (order_terminal u.status = false → on_order_update p st u = st) ∧
    (algo_terminal ua.status = true →
      slot (on_algo_order_update p st ua) side = none) ∧
    (algo_terminal ua.status = false → on_algo_order_update p st ua = st) := by
  have hstep : ∀ (st' : StopStates),
      slot st' side = some s0 →
      order_terminal u.status = true →
      on_order_update_side p st' u side = set_slot st' side none := by
    intro st' hslot hterm
    simp only [on_order_update_side, hslot, hcid]
    rw [if_neg hne, if_neg (fun hk => hk hmatch), if_pos hterm]
  have hid : order_terminal u.status = false →
      ∀ (st' : StopStates) (sd : PositionSide),
      on_order_update_side p st' u sd = st' := by
    intro hterm st' sd
    rw [on_order_update_side.eq_def]
    repeat' split
    all_goals simp_all
  have horder_cases : ∀ (st' : StopStates) (sd : PositionSide),
      on_order_update_side p st' u sd = st' ∨
        on_order_update_side p st' u sd = set_slot st' sd none := by
    intro st' sd
    rw [on_order_update_side.eq_def]
    repeat' split
    all_goals first
      | exact Or.inl rfl
      | exact Or.inr rfl
  have halgo_step : ∀ (st' : StopStates),
      slot st' side = some s0 →
      on_algo_order_update_side p st' ua side = set_slot st' side none := by
    intro st' hslot
    simp only [on_algo_order_update_side, hslot]
    rw [if_pos hmatcha]
  have halgo_cases : ∀ (st' : StopStates) (sd : PositionSide),
      on_algo_order_update_side p st' ua sd = st' ∨
        on_algo_order_update_side p st' ua sd = set_slot st' sd none := by
    intro st' sd
    rw [on_algo_order_update_side.eq_def]
    repeat' split
    all_goals first
      | exact Or.inl rfl
      | exact Or.inr rfl
  have hslot_same : ∀ (st' : StopStates) (sd : PositionSide)
      (v : Option ProtectiveStopState), slot (set_slot st' sd v) sd = v := by
    intro st' sd v
    cases sd <;> rfl
  have hslot_other : ∀ (st' : StopStates) (sd sd' : PositionSide)
      (v : Option ProtectiveStopState), sd ≠ sd' →
      slot (set_slot st' sd v) sd' = slot st' sd' := by
    intro st' sd sd' v hnee
    cases sd <;> cases sd' <;> first | rfl | exact absurd rfl hnee
  refine ⟨?_, ?_, ?_, ?_⟩
  · intro hterm
    rw [on_order_update]
    cases side with
    | LONG =>
      rw [hstep st hstate hterm]
      rcases horder_cases (set_slot st PositionSide.LONG none) PositionSide.SHORT
        with h2 | h2 <;> rw [h2]
      · exact hslot_same st PositionSide.LONG none
      · rw [hslot_other _ PositionSide.SHORT PositionSide.LONG none (by decide)]
        exact hslot_same st PositionSide.LONG none
    | SHORT =>
      rcases horder_cases st PositionSide.LONG with h1 | h1 <;> rw [h1]
      · rw [hstep st hstate hterm]
        exact hslot_same st PositionSide.SHORT none
      · have hpres : slot (set_slot st PositionSide.LONG none) PositionSide.SHORT
            = some s0 := by
          rw [hslot_other st PositionSide.LONG PositionSide.SHORT none (by decide)]
          exact hstate
        rw [hstep _ hpres hterm]
        exact hslot_same _ PositionSide.SHORT none
  · intro hterm
    rw [on_order_update, hid hterm st PositionSide.LONG, hid hterm st PositionSide.SHORT]
  · intro hterm
    rw [on_algo_order_update]
    rw [if_neg (by rw [hterm]; exact fun hk => hk rfl)]
    cases side with
    | LONG =>
      rw [halgo_step st hstate]
      rcases halgo_cases (set_slot st PositionSide.LONG none) PositionSide.SHORT
        with h2 | h2 <;> rw [h2]
      · exact hslot_same st PositionSide.LONG none
      · rw [hslot_other _ PositionSide.SHORT PositionSide.LONG none (by decide)]
        exact hslot_same st PositionSide.LONG none
    | SHORT =>
      rcases halgo_cases st PositionSide.LONG with h1 | h1 <;> rw [h1]
      · rw [halgo_step st hstate]
        exact hslot_same st PositionSide.SHORT none
      · have hpres : slot (set_slot st PositionSide.LONG none) PositionSide.SHORT
            = some s0 := by
          rw [hslot_other st PositionSide.LONG PositionSide.SHORT none (by decide)]
          exact hstate
        rw [halgo_step _ hpres]
        exact hslot_same _ PositionSide.SHORT none
  · intro hterm
    rw [on_algo_order_update, if_pos (by rw [hterm]; exact Bool.false_ne_true)]

/-- C5 witness: a tracked LONG stop for `BTC/USDT:USDT` under prefix `vq-ps-`;
a FILLED order update and a lowercase `canceled` algo update, both with a
matching client order id, clear the side's state. -/
theorem on_update_terminal_clears_witness :
    slot ⟨some ⟨"BTC/USDT:USDT", PositionSide.LONG, "vq-ps-btcusdt-L-1",
        some "1", some (1011/10)⟩, none⟩ PositionSide.LONG
      = some ⟨"BTC/USDT:USDT", PositionSide.LONG, "vq-ps-btcusdt-L-1",
        some "1", some (1011/10)⟩ ∧
    match_client_order_id "vq-ps-" "vq-ps-btcusdt-L-1" "BTC/USDT:USDT"
      PositionSide.LONG = true ∧
    ((order_terminal OrderStatus.FILLED = true →
      slot (on_order_update "vq-ps-"
        ⟨some ⟨"BTC/USDT:USDT", PositionSide.LONG, "vq-ps-btcusdt-L-1",
          some "1", some (1011/10)⟩, none⟩
        ⟨"BTC/USDT:USDT", "1", some "vq-ps-btcusdt-L-1", OrderStatus.FILLED⟩)
        PositionSide.LONG = none) ∧
    (order_terminal OrderStatus.FILLED = false →
      on_order_update "vq-ps-"
        ⟨some ⟨"BTC/USDT:USDT", PositionSide.LONG, "vq-ps-btcusdt-L-1",
          some "1", some (1011/10)⟩, none⟩
        ⟨"BTC/USDT:USDT", "1", some "vq-ps-btcusdt-L-1", OrderStatus.FILLED⟩
        = ⟨some ⟨"BTC/USDT:USDT", PositionSide.LONG, "vq-ps-btcusdt-L-1",
          some "1", some (1011/10)⟩, none⟩) ∧
    (algo_terminal "canceled" = true →
      slot (on_algo_order_update "vq-ps-"
        ⟨some ⟨"BTC/USDT:USDT", PositionSide.LONG, "vq-ps-btcusdt-L-1",
          some "1", some (1011/10)⟩, none⟩
        ⟨"BTC/USDT:USDT", "9", "vq-ps-btcusdt-L-1", "canceled"⟩)
        PositionSide.LONG = none) ∧
    (algo_terminal "canceled" = false →
      on_algo_order_update "vq-ps-"
        ⟨some ⟨"BTC/USDT:USDT", PositionSide.LONG, "vq-ps-btcusdt-L-1",
          some "1", some (1011/10)⟩, none⟩
        ⟨"BTC/USDT:USDT", "9", "vq-ps-btcusdt-L-1", "canceled"⟩
        = ⟨some ⟨"BTC/USDT:USDT", PositionSide.LONG, "vq-ps-btcusdt-L-1",
          some "1", some (1011/10)⟩, none⟩)) :=
  ⟨rfl, by decide,
    on_update_terminal_clears "vq-ps-"
      ⟨some ⟨"BTC/USDT:USDT", PositionSide.LONG, "vq-ps-btcusdt-L-1",
        some "1", some (1011/10)⟩, none⟩
      ⟨"BTC/USDT:USDT", "1", some "vq-ps-btcusdt-L-1", OrderStatus.FILLED⟩
      ⟨"BTC/USDT:USDT", "9", "vq-ps-btcusdt-L-1", "canceled"⟩
      PositionSide.LONG
      ⟨"BTC/USDT:USDT", PositionSide.LONG, "vq-ps-btcusdt-L-1",
        some "1", some (1011/10)⟩
      "vq-ps-btcusdt-L-1" rfl rfl (by decide) (by decide) (by decide)⟩

end VibeQuant
